import Mathlib

/-!
Verification of the Realtime-Order server (src/server.js): a MongoDB
change-stream is watched and every change event is normalized into a
payload and broadcast to all connected Socket.IO clients, while an
Express CRUD API mutates the underlying `orders` collection.

The embedding below models the data flowing through the pipeline
(change events, the normalized payload built at server.js:107-113),
the event loop of the server as a step function over traces of
connect / disconnect / change / stream-error events, and the four
Express handlers (server.js:33-77) as pure functions over the stored
collection.
-/

namespace RealtimeOrder

/-- Sparse description of changed fields (MongoDB `updateDescription`),
modelled as an association list from field name to new value. -/
abbrev ChangedFields := List (String × String)

/-- An order document, per the Mongoose schema at server.js:21-27. -/
structure OrderDoc where
  id : Int
  customer_name : String
  product_name : String
  status : String
  updated_at : Nat
  deriving DecidableEq, Repr

/-- MongoDB change-stream operation types (server.js:104). -/
inductive OpType where
  | insert
  | update
  | replace
  | delete
  | invalidate
  deriving DecidableEq, Repr

/-- A raw change-stream event as received by the handler at
server.js:103.  `resumeToken` is the opaque `_id` resume position of
the event (the spec's `sequence_token`); it is part of the native
event but is never copied into the outbound payload. -/
structure ChangeEvent where
  resumeToken : Nat
  operationType : OpType
  ns : String × String
  documentKey : Int
  fullDocument : Option OrderDoc
  updateDescription : Option ChangedFields
  deriving DecidableEq, Repr

/-- The outbound payload built at server.js:107-113. -/
structure Payload where
  op : OpType
  ns : String × String
  documentKey : Int
  fullDocument : Option OrderDoc
  updateDescription : Option ChangedFields
  deriving DecidableEq, Repr

/-- Normalization performed by the change handler (server.js:107-113):
`op`, `ns` and `documentKey` are copied; `fullDocument` and
`updateDescription` are copied with absence mapped to `null`
(`change.fullDocument || null`), modelled by `Option`. -/
def mkPayload (change : ChangeEvent) : Payload :=
  { op := change.operationType
    ns := change.ns
    documentKey := change.documentKey
    fullDocument := change.fullDocument
    updateDescription := change.updateDescription }

/-- Events driving the server's event loop: a Socket.IO client
connecting (server.js:80), disconnecting (server.js:82), a
change-stream event arriving (server.js:103), or the change stream
erroring (server.js:119). -/
inductive SysEv where
  | connect (sid : Nat)
  | disconnect (sid : Nat)
  | change (e : ChangeEvent)
  | streamError
  deriving DecidableEq, Repr

/-- One record pushed over a socket: the position `evIdx` of the
originating upstream event in the trace, the receiving socket `sid`,
the Socket.IO event name, and the payload. -/
structure Delivery where
  evIdx : Nat
  sid : Nat
  msg : String
  payload : Payload
  deriving DecidableEq, Repr

/-- Modelled from the spec: Socket.IO's internal membership set, which
`io.on('connection')` (server.js:80) adds to.  Adding a channel that
is already present leaves the set unchanged. -/
def register (chs : List Nat) (sid : Nat) : List Nat :=
  if sid ∈ chs then chs else chs ++ [sid]

/-- Modelled from the spec: Socket.IO's removal of a channel from the
membership set on disconnect (server.js:82). Removing an absent
channel leaves the set unchanged. -/
def unregister (chs : List Nat) (sid : Nat) : List Nat :=
  chs.filter (fun c => c ≠ sid)

/-- `io.emit('orderChanged', payload)` (server.js:116): one delivery
per currently connected socket, in membership order. -/
def broadcastLog (idx : Nat) (p : Payload) (chs : List Nat) : List Delivery :=
  chs.map (fun sid => ⟨idx, sid, "orderChanged", p⟩)

/-- Observable server state: the connected sockets, whether the change
stream has closed after an error, how many times the error handler ran
(server.js:119-122), and the ordered log of all records pushed so far. -/
structure SrvState where
  channels : List Nat
  closed : Bool
  errorCount : Nat
  log : List Delivery
  deriving DecidableEq, Repr

/-- Initial state: no clients, stream open, nothing delivered. -/
def initState : SrvState := ⟨[], false, 0, []⟩

/-- One step of the server's event loop.  A change event is handled
synchronously (server.js:103-117): the payload is built and emitted to
every connected socket; after the stream has errored the subscription
is closed and no further change events are delivered (the error
handler at server.js:119-122 only logs — no retry, no resubscribe). -/
def step (s : SrvState) (idx : Nat) : SysEv → SrvState
  | .connect sid => { s with channels := register s.channels sid }
  | .disconnect sid => { s with channels := unregister s.channels sid }
  | .change e =>
      if s.closed then s
      else { s with log := s.log ++ broadcastLog idx (mkPayload e) s.channels }
  | .streamError => { s with closed := true, errorCount := s.errorCount + 1 }

/-- Run the event loop from a state, numbering events from `idx`. -/
def runAux (s : SrvState) (idx : Nat) : List SysEv → SrvState
  | [] => s
  | ev :: rest => runAux (step s idx ev) (idx + 1) rest

/-- Run a whole trace from the initial state. -/
def run (evs : List SysEv) : SrvState := runAux initState 0 evs

/-- The ordered list of payloads socket `sid` receives from a log. -/
def deliveredOf (sid : Nat) (log : List Delivery) : List Payload :=
  (log.filter (fun d => d.sid == sid)).map (fun d => d.payload)

/-- The ordered list of payloads socket `sid` has received. -/
def deliveredTo (sid : Nat) (s : SrvState) : List Payload :=
  deliveredOf sid s.log

/-- The upstream change events of a trace, in emission order. -/
def changeEvents (evs : List SysEv) : List ChangeEvent :=
  evs.filterMap (fun ev => match ev with
    | .change e => some e
    | _ => none)

/-! ## Express CRUD handlers (server.js:33-77)

Each handler is a pure function from the stored collection and the
request to an HTTP result, the new collection, and the list of
messages pushed to client channels.  None of the handlers contains an
`io.emit` call in the source, which the empty `emits` field records. -/

/-- A message pushed to client channels. -/
structure Emission where
  msg : String
  payload : Payload
  deriving DecidableEq, Repr

/-- A JSON response body, covering the shapes returned at
server.js:37, 40, 48, 60, 61, 72, 73. -/
inductive RespBody where
  | doc (d : OrderDoc)
  | docs (l : List OrderDoc)
  | errMsg (e : String)
  | notFound
  | deleted (id : Int)
  deriving DecidableEq, Repr

/-- Result of one Express handler call: HTTP status, body, resulting
collection, and messages emitted to client channels. -/
structure HandlerResult where
  status : Nat
  body : RespBody
  store : List OrderDoc
  emits : List Emission
  deriving DecidableEq, Repr

/-- A create request body (POST /orders): all fields optional in
JSON; the schema requires `id` and restricts `status` to the enum. -/
structure CreateReq where
  id : Option Int
  customer_name : Option String
  product_name : Option String
  status : Option String
  deriving DecidableEq, Repr

/-- An update request body (PUT /orders/:id): sparse field set. -/
structure UpdateReq where
  id : Option Int
  customer_name : Option String
  product_name : Option String
  status : Option String
  deriving DecidableEq, Repr

/-- The `status` enum of the schema (server.js:25). -/
def validStatus (st : String) : Bool :=
  st == "pending" || st == "shipped" || st == "delivered"

/-- POST /orders (server.js:33-42): `Order.create` with
`updated_at := now`; 201 with the created document on success, 400 on
a validation or duplicate-key error.  The schema requires `id`, makes
it unique, defaults `status` to `"pending"` and restricts it to the
enum. -/
def postOrders (now : Nat) (store : List OrderDoc) (req : CreateReq) : HandlerResult :=
  match req.id with
  | none => ⟨400, .errMsg "validation failed", store, []⟩
  | some k =>
      if store.any (fun d => d.id == k) then
        ⟨400, .errMsg "duplicate key", store, []⟩
      else
        let st := req.status.getD "pending"
        if validStatus st then
          let doc : OrderDoc := ⟨k, req.customer_name.getD "", req.product_name.getD "", st, now⟩
          ⟨201, .doc doc, store ++ [doc], []⟩
        else ⟨400, .errMsg "validation failed", store, []⟩

/-- Insert a document into a list kept sorted by `updated_at`,
newest first. -/
def insertDesc (d : OrderDoc) : List OrderDoc → List OrderDoc
  | [] => [d]
  | x :: xs => if d.updated_at ≤ x.updated_at then x :: insertDesc d xs else d :: x :: xs

/-- Sort documents by `updated_at`, newest first
(`.sort(\x7b updated_at: -1 \x7d)` at server.js:47). -/
def sortByUpdatedDesc : List OrderDoc → List OrderDoc
  | [] => []
  | x :: xs => insertDesc x (sortByUpdatedDesc xs)

/-- GET /orders (server.js:45-52): all orders, newest first. -/
def getOrders (store : List OrderDoc) : HandlerResult :=
  ⟨200, .docs (sortByUpdatedDesc store), store, []⟩

/-- The `\x7b id \x7d` query of `findOneAndUpdate` / `findOneAndDelete`
(server.js:59,71), with `parsedId` the value of
`Number(req.params.id)` where `none` stands for NaN.  Stored ids are
genuine numbers (JSON cannot encode NaN), so a NaN key matches no
stored document. -/
def findById (store : List OrderDoc) (parsedId : Option Int) : Option OrderDoc :=
  match parsedId with
  | none => none
  | some k => store.find? (fun d => d.id == k)

/-- Apply an update document to a stored order:
`\x7b ...req.body, updated_at: now \x7d` sets each supplied field plus
`updated_at` (server.js:58). -/
def applyUpdate (d : OrderDoc) (req : UpdateReq) (now : Nat) : OrderDoc :=
  { id := req.id.getD d.id
    customer_name := req.customer_name.getD d.customer_name
    product_name := req.product_name.getD d.product_name
    status := req.status.getD d.status
    updated_at := now }

/-- Rewrite the first document whose `id` is `k`, as
`findOneAndUpdate` does; other documents are untouched. -/
def updateFirst (k : Int) (f : OrderDoc → OrderDoc) : List OrderDoc → List OrderDoc
  | [] => []
  | d :: rest => if d.id == k then f d :: rest else d :: updateFirst k f rest

/-- Remove the first document whose `id` is `k`, as
`findOneAndDelete` does. -/
def deleteFirst (k : Int) : List OrderDoc → List OrderDoc
  | [] => []
  | d :: rest => if d.id == k then rest else d :: deleteFirst k rest

/-- PUT /orders/:id (server.js:55-65): `findOneAndUpdate(\x7b id \x7d,
update, \x7b new: true, upsert: false \x7d)`; 404 with
`\x7b message: 'Not found' \x7d` when no document matches, otherwise
200 with the post-update document. -/
def putOrders (now : Nat) (store : List OrderDoc) (parsedId : Option Int)
    (req : UpdateReq) : HandlerResult :=
  match parsedId with
  | none => ⟨404, .notFound, store, []⟩
  | some k =>
      match store.find? (fun d => d.id == k) with
      | none => ⟨404, .notFound, store, []⟩
      | some d =>
          ⟨200, .doc (applyUpdate d req now),
            updateFirst k (fun d0 => applyUpdate d0 req now) store, []⟩

/-- DELETE /orders/:id (server.js:68-77): `findOneAndDelete(\x7b id \x7d)`;
404 with `\x7b message: 'Not found' \x7d` when no document matches,
otherwise 200 with `\x7b message: 'deleted', id \x7d`. -/
def deleteOrders (store : List OrderDoc) (parsedId : Option Int) : HandlerResult :=
  match parsedId with
  | none => ⟨404, .notFound, store, []⟩
  | some k =>
      match store.find? (fun d => d.id == k) with
      | none => ⟨404, .notFound, store, []⟩
      | some _ => ⟨200, .deleted k, deleteFirst k store, []⟩

/-! ## Backfill on update (C4) and per-channel sends (C7) -/

/-- Set `status` on a document, as an update `\x7b status: st \x7d`
does. -/
def setStatus (d : OrderDoc) (st : String) (now : Nat) : OrderDoc :=
  { d with status := st, updated_at := now }

/-- Apply `\x7b status: st \x7d` to every stored document with the
given key. -/
def applySetStatus (store : List OrderDoc) (key : Int) (st : String) (now : Nat) :
    List OrderDoc :=
  store.map (fun d => if d.id = key then setStatus d st now else d)

/-- Modelled from the spec: with `fullDocument: 'updateLookup'`
(server.js:100-101) the driver backfills each update event with the
current post-image of the document, fetched by a point lookup on
`documentKey`; when the lookup finds nothing the event is still
emitted with `fullDocument` absent.  This driver behaviour is not in
src/, only the option that enables it. -/
def updateLookupEvent (tok : Nat) (store : List OrderDoc) (key : Int)
    (cf : Option ChangedFields) : ChangeEvent :=
  ⟨tok, .update, ("test", "orders"), key, store.find? (fun d => d.id == key), cf⟩

/-- Modelled from the spec: a single Socket.IO send to one channel,
which either delivers the payload or fails; `fails` says which
channels' connections are gone.  Socket.IO's send path is not in
src/. -/
def sendToChannel (fails : Nat → Bool) (p : Payload) (sid : Nat) : Option (Nat × Payload) :=
  if fails sid then none else some (sid, p)

/-- Modelled from the spec: `io.emit` attempts one independent send
per channel in the active set; the result lists the successful
deliveries. -/
def broadcastAttempt (fails : Nat → Bool) (p : Payload) (chs : List Nat) :
    List (Nat × Payload) :=
  chs.filterMap (sendToChannel fails p)

/-- Modelled from the spec: channels whose send failed are implicitly
unregistered; the rest stay in the active set. -/
def survivors (fails : Nat → Bool) (chs : List Nat) : List Nat :=
  chs.filter (fun sid => !(fails sid))

/-! ## Lemmas about the event loop -/

theorem runAux_append (s : SrvState) (j : Nat) (l₁ l₂ : List SysEv) :
    runAux s j (l₁ ++ l₂) = runAux (runAux s j l₁) (j + l₁.length) l₂ := by
  induction l₁ generalizing s j with
  | nil => simp [runAux]
  | cons ev rest ih =>
      show runAux (step s j ev) (j + 1) (rest ++ l₂) = _
      rw [ih]
      have : j + 1 + rest.length = j + (ev :: rest).length := by
        simp [List.length_cons]; omega
      rw [this]
      rfl

theorem step_log (s : SrvState) (j : Nat) (ev : SysEv) :
    ∃ u, (step s j ev).log = s.log ++ u ∧
      ∀ d ∈ u, d.evIdx = j ∧ d.msg = "orderChanged" := by
  cases ev with
  | connect sid => exact ⟨[], by simp [step], by simp⟩
  | disconnect sid => exact ⟨[], by simp [step], by simp⟩
  | streamError => exact ⟨[], by simp [step], by simp⟩
  | change e =>
      by_cases h : s.closed = true
      · exact ⟨[], by simp [step, h], by simp⟩
      · refine ⟨broadcastLog j (mkPayload e) s.channels, by simp [step, h], ?_⟩
        intro d hd
        simp only [broadcastLog, List.mem_map] at hd
        obtain ⟨c, _, rfl⟩ := hd
        exact ⟨rfl, rfl⟩

theorem log_bounds (l : List SysEv) (s : SrvState) (j : Nat) :
    ∃ t, (runAux s j l).log = s.log ++ t ∧ ∀ d ∈ t, j ≤ d.evIdx ∧ d.evIdx < j + l.length := by
  induction l generalizing s j with
  | nil => exact ⟨[], by simp [runAux], by simp⟩
  | cons ev rest ih =>
      obtain ⟨u, hu, hub⟩ := step_log s j ev
      obtain ⟨t, ht, htb⟩ := ih (step s j ev) (j + 1)
      refine ⟨u ++ t, ?_, ?_⟩
      · show (runAux (step s j ev) (j + 1) rest).log = _
        rw [ht, hu, List.append_assoc]
      · intro d hd
        rcases List.mem_append.mp hd with h1 | h2
        · have := (hub d h1).1
          constructor
          · omega
          · simp [List.length_cons]; omega
        · have := htb d h2
          constructor
          · omega
          · simp only [List.length_cons]; omega

theorem register_nodup (chs : List Nat) (sid : Nat) (h : chs.Nodup) :
    (register chs sid).Nodup := by
  unfold register
  by_cases hm : sid ∈ chs
  · simpa [hm] using h
  · simp only [hm, if_false]
    exact h.append (List.nodup_singleton _) (List.disjoint_singleton.2 hm)

theorem unregister_nodup (chs : List Nat) (sid : Nat) (h : chs.Nodup) :
    (unregister chs sid).Nodup :=
  h.filter _

theorem step_nodup (s : SrvState) (j : Nat) (ev : SysEv) (h : s.channels.Nodup) :
    (step s j ev).channels.Nodup := by
  cases ev with
  | connect sid => exact register_nodup _ _ h
  | disconnect sid => exact unregister_nodup _ _ h
  | streamError => exact h
  | change e =>
      by_cases hc : s.closed = true <;> simp [step, hc, h]

theorem runAux_nodup (l : List SysEv) (s : SrvState) (j : Nat) (h : s.channels.Nodup) :
    (runAux s j l).channels.Nodup := by
  induction l generalizing s j with
  | nil => exact h
  | cons ev rest ih => exact ih (step s j ev) (j + 1) (step_nodup s j ev h)

theorem closed_runAux (l : List SysEv) (s : SrvState) (j : Nat) (h : s.closed = true) :
    (runAux s j l).closed = true ∧ (runAux s j l).log = s.log := by
  induction l generalizing s j with
  | nil => exact ⟨h, rfl⟩
  | cons ev rest ih =>
      have hstep : (step s j ev).closed = true ∧ (step s j ev).log = s.log := by
        cases ev with
        | connect sid => exact ⟨h, rfl⟩
        | disconnect sid => exact ⟨h, rfl⟩
        | streamError => exact ⟨rfl, rfl⟩
        | change e => simp [step, h]
      obtain ⟨hc, hl⟩ := hstep
      obtain ⟨hc', hl'⟩ := ih (step s j ev) (j + 1) hc
      refine ⟨hc', ?_⟩
      show (runAux (step s j ev) (j + 1) rest).log = s.log
      rw [hl', hl]

theorem errorCount_mono (l : List SysEv) (s : SrvState) (j : Nat) :
    s.errorCount ≤ (runAux s j l).errorCount := by
  induction l generalizing s j with
  | nil => exact Nat.le_refl _
  | cons ev rest ih =>
      have h1 : s.errorCount ≤ (step s j ev).errorCount := by
        cases ev with
        | connect sid => exact Nat.le_refl _
        | disconnect sid => exact Nat.le_refl _
        | streamError => exact Nat.le_succ _
        | change e => by_cases hc : s.closed = true <;> simp [step, hc]
      exact h1.trans (ih (step s j ev) (j + 1))

theorem deliveredOf_append (sid : Nat) (a b : List Delivery) :
    deliveredOf sid (a ++ b) = deliveredOf sid a ++ deliveredOf sid b := by
  simp [deliveredOf, List.filter_append, List.map_append]

theorem deliveredOf_broadcastLog (sid i : Nat) (p : Payload) (chs : List Nat) :
    deliveredOf sid (broadcastLog i p chs)
      = (chs.filter (fun c => c == sid)).map (fun _ => p) := by
  simp only [deliveredOf, broadcastLog, List.filter_map, List.map_map]
  rfl

theorem filter_eq_singleton_of_nodup (chs : List Nat) (sid : Nat)
    (hnd : chs.Nodup) (hm : sid ∈ chs) :
    chs.filter (fun c => c == sid) = [sid] := by
  induction chs with
  | nil => cases hm
  | cons c rest ih =>
      by_cases hcs : c = sid
      · subst hcs
        have hni : c ∉ rest := (List.nodup_cons.mp hnd).1
        have hrest : rest.filter (fun x => x == c) = [] := by
          refine List.filter_eq_nil_iff.mpr ?_
          intro a ha hq
          exact hni (beq_iff_eq.mp hq ▸ ha)
        simp [List.filter_cons, hrest]
      · have hm' : sid ∈ rest := by
          rcases List.mem_cons.mp hm with h | h
          · exact absurd h.symm hcs
          · exact h
        have hrec := ih (List.nodup_cons.mp hnd).2 hm'
        simp [List.filter_cons, hcs, hrec]

theorem filter_eq_nil_of_not_mem (chs : List Nat) (sid : Nat) (hm : sid ∉ chs) :
    chs.filter (fun c => c == sid) = [] := by
  refine List.filter_eq_nil_iff.mpr ?_
  intro a ha hq
  exact hm (beq_iff_eq.mp hq ▸ ha)

theorem filter_idx_sid_broadcastLog (i : Nat) (p : Payload) (chs : List Nat) (sid : Nat) :
    (broadcastLog i p chs).filter (fun d => d.evIdx == i && d.sid == sid)
      = (chs.filter (fun c => c == sid)).map
          (fun c => (⟨i, c, "orderChanged", p⟩ : Delivery)) := by
  induction chs with
  | nil => rfl
  | cons c rest ih =>
      have ih' := ih
      simp only [broadcastLog] at ih' ⊢
      by_cases hcs : (c == sid) = true
      · simp [List.filter_cons, hcs, ih']
      · simp [List.filter_cons, hcs, ih']

theorem deliveredTo_runAux (sid : Nat) (l : List SysEv) (s : SrvState) (j : Nat)
    (hnd : s.channels.Nodup) :
    ∃ t, deliveredTo sid (runAux s j l) = deliveredTo sid s ++ t ∧
      List.Sublist t ((changeEvents l).map mkPayload) := by
  induction l generalizing s j with
  | nil => exact ⟨[], by simp [runAux], List.nil_sublist _⟩
  | cons ev rest ih =>
      obtain ⟨t, ht, hsub⟩ := ih (step s j ev) (j + 1) (step_nodup s j ev hnd)
      cases ev with
      | connect c =>
          refine ⟨t, ?_, by simpa [changeEvents] using hsub⟩
          show deliveredTo sid (runAux (step s j (.connect c)) (j + 1) rest) = _
          rw [ht]; rfl
      | disconnect c =>
          refine ⟨t, ?_, by simpa [changeEvents] using hsub⟩
          show deliveredTo sid (runAux (step s j (.disconnect c)) (j + 1) rest) = _
          rw [ht]; rfl
      | streamError =>
          refine ⟨t, ?_, by simpa [changeEvents] using hsub⟩
          show deliveredTo sid (runAux (step s j .streamError) (j + 1) rest) = _
          rw [ht]; rfl
      | change e =>
          have hce : changeEvents (SysEv.change e :: rest) = e :: changeEvents rest := by
            simp [changeEvents]
          by_cases hc : s.closed = true
          · refine ⟨t, ?_, ?_⟩
            · show deliveredTo sid (runAux (step s j (.change e)) (j + 1) rest) = _
              rw [ht]
              simp [deliveredTo, step, hc]
            · rw [hce, List.map_cons]
              exact hsub.cons _
          · have hlog : (step s j (SysEv.change e)).log
                = s.log ++ broadcastLog j (mkPayload e) s.channels := by
              simp [step, hc]
            by_cases hm : sid ∈ s.channels
            · refine ⟨mkPayload e :: t, ?_, ?_⟩
              · show deliveredTo sid (runAux (step s j (.change e)) (j + 1) rest) = _
                rw [ht]
                have hdel : deliveredTo sid (step s j (SysEv.change e))
                    = deliveredTo sid s ++ [mkPayload e] := by
                  unfold deliveredTo
                  rw [hlog, deliveredOf_append, deliveredOf_broadcastLog,
                    filter_eq_singleton_of_nodup _ _ hnd hm]
                  rfl
                rw [hdel, List.append_assoc]
                rfl
              · rw [hce, List.map_cons]
                exact hsub.cons₂ _
            · refine ⟨t, ?_, ?_⟩
              · show deliveredTo sid (runAux (step s j (.change e)) (j + 1) rest) = _
                rw [ht]
                have hdel : deliveredTo sid (step s j (SysEv.change e))
                    = deliveredTo sid s := by
                  unfold deliveredTo
                  rw [hlog, deliveredOf_append, deliveredOf_broadcastLog,
                    filter_eq_nil_of_not_mem _ _ hm]
                  simp
                rw [hdel]
              · rw [hce, List.map_cons]
                exact hsub.cons _

theorem msg_runAux (l : List SysEv) (s : SrvState) (j : Nat)
    (h : s.log.all (fun d => d.msg == "orderChanged") = true) :
    (runAux s j l).log.all (fun d => d.msg == "orderChanged") = true := by
  induction l generalizing s j with
  | nil => exact h
  | cons ev rest ih =>
      refine ih (step s j ev) (j + 1) ?_
      obtain ⟨u, hu, hub⟩ := step_log s j ev
      rw [hu, List.all_append, h, Bool.true_and]
      refine List.all_eq_true.mpr ?_
      intro d hd
      exact beq_iff_eq.mpr ((hub d hd).2)

/-! ## Concrete data used by witnesses -/

/-- A sample stored order. -/
def wdoc : OrderDoc := ⟨200, "alice", "widget", "pending", 5⟩

/-- A sample insert change event. -/
def wev : ChangeEvent := ⟨7, .insert, ("test", "orders"), 200, some wdoc, none⟩

/-- A sample delete change event (no full document). -/
def wevDel : ChangeEvent := ⟨8, .delete, ("test", "orders"), 200, none, some [("status", "x")]⟩

/-- A sample trace: client 1 stays connected, client 2 disconnects
before the change event at position 3. -/
def wtrace : List SysEv := [.connect 1, .connect 2, .disconnect 2, .change wev]

/-! ## Claims -/

/-- C1: the change handler runs synchronously once per upstream event
in arrival order, so the sequence of records any client receives is an
order-preserving subsequence of the normalized upstream feed — no
reordering, also when restricted to any single `document_key`. -/
theorem delivery_preserves_upstream_order (evs : List SysEv) (sid : Nat) :
    List.Sublist (deliveredTo sid (run evs)) ((changeEvents evs).map mkPayload) ∧
    ∀ k : Int,
      List.Sublist ((deliveredTo sid (run evs)).filter (fun p => p.documentKey == k))
        (((changeEvents evs).filter (fun e => e.documentKey == k)).map mkPayload) := by
  obtain ⟨t, ht, hsub⟩ := deliveredTo_runAux sid evs initState 0 List.nodup_nil
  have hrun : deliveredTo sid (run evs) = t := by
    rw [run, ht]; rfl
  constructor
  · rw [hrun]; exact hsub
  · intro k
    rw [hrun]
    have h1 := hsub.filter (fun p => p.documentKey == k)
    have h2 : ((changeEvents evs).map mkPayload).filter (fun p => p.documentKey == k)
        = ((changeEvents evs).filter (fun e => e.documentKey == k)).map mkPayload := by
      rw [List.filter_map]
      rfl
    rw [h2] at h1
    exact h1

/-- C2: broadcasting event number `i` attempts delivery exactly to the
channels in the active set at that moment: a client in the set
receives exactly one `orderChanged` record for the event, a client not
in the set receives none. -/
theorem broadcast_hits_active_set (evs : List SysEv) (i : Nat) (e : ChangeEvent) (sid : Nat)
    (hev : evs.get? i = some (.change e))
    (hopen : (run (List.take i evs)).closed = false) :
    (sid ∈ (run (List.take i evs)).channels →
      (run evs).log.filter (fun d => d.evIdx == i && d.sid == sid)
        = [⟨i, sid, "orderChanged", mkPayload e⟩]) ∧
    (sid ∉ (run (List.take i evs)).channels →
      (run evs).log.filter (fun d => d.evIdx == i && d.sid == sid) = []) := by
  have hev2 : evs[i]? = some (SysEv.change e) := by
    rw [← List.get?_eq_getElem?]; exact hev
  obtain ⟨hlt, hgetElem⟩ := List.getElem?_eq_some_iff.mp hev2
  have hdrop : List.drop i evs = SysEv.change e :: List.drop (i + 1) evs := by
    rw [List.drop_eq_getElem_cons hlt, hgetElem]
  have hlen_take : (List.take i evs).length = i := by
    rw [List.length_take]; omega
  have hrun : run evs
      = runAux (step (run (List.take i evs)) i (SysEv.change e)) (i + 1)
          (List.drop (i + 1) evs) := by
    conv_lhs => rw [run, ← List.take_append_drop i evs]
    rw [runAux_append, hlen_take, Nat.zero_add, hdrop]
    rfl
  have hstep_log : (step (run (List.take i evs)) i (SysEv.change e)).log
      = (run (List.take i evs)).log
        ++ broadcastLog i (mkPayload e) (run (List.take i evs)).channels := by
    simp [step, hopen]
  obtain ⟨t, htl, htb⟩ :=
    log_bounds (List.drop (i + 1) evs) (step (run (List.take i evs)) i (SysEv.change e)) (i + 1)
  obtain ⟨t0, ht0, ht0b⟩ := log_bounds (List.take i evs) initState 0
  have hpre : ∀ d ∈ (run (List.take i evs)).log, d.evIdx < i := by
    intro d hd
    rw [run, ht0] at hd
    have hd' : d ∈ t0 := by simpa [initState] using hd
    have := (ht0b d hd').2
    omega
  have hfinal : (run evs).log
      = ((run (List.take i evs)).log
          ++ broadcastLog i (mkPayload e) (run (List.take i evs)).channels) ++ t := by
    rw [hrun, htl, hstep_log]
  have hfilter_pre : (run (List.take i evs)).log.filter
      (fun d => d.evIdx == i && d.sid == sid) = [] := by
    refine List.filter_eq_nil_iff.mpr ?_
    intro d hd hq
    have h1 : d.evIdx = i := beq_iff_eq.mp (Bool.and_elim_left hq)
    exact absurd h1 (Nat.ne_of_lt (hpre d hd))
  have hfilter_post : t.filter (fun d => d.evIdx == i && d.sid == sid) = [] := by
    refine List.filter_eq_nil_iff.mpr ?_
    intro d hd hq
    have h1 : d.evIdx = i := beq_iff_eq.mp (Bool.and_elim_left hq)
    have h2 := (htb d hd).1
    omega
  have hfilter_bcast :
      (broadcastLog i (mkPayload e) (run (List.take i evs)).channels).filter
          (fun d => d.evIdx == i && d.sid == sid)
        = ((run (List.take i evs)).channels.filter (fun c => c == sid)).map
            (fun c => (⟨i, c, "orderChanged", mkPayload e⟩ : Delivery)) :=
    filter_idx_sid_broadcastLog i (mkPayload e) _ sid
  have hnd : (run (List.take i evs)).channels.Nodup :=
    runAux_nodup _ initState 0 List.nodup_nil
  constructor
  · intro hm
    rw [hfinal, List.filter_append, List.filter_append, hfilter_pre, hfilter_post,
      hfilter_bcast, filter_eq_singleton_of_nodup _ _ hnd hm]
    rfl
  · intro hm
    rw [hfinal, List.filter_append, List.filter_append, hfilter_pre, hfilter_post,
      hfilter_bcast, filter_eq_nil_of_not_mem _ _ hm]
    rfl

/-- Witness for C2 at a concrete trace: client 1 is connected when the
event at position 3 fires and receives exactly one record; client 2
disconnected beforehand and receives none. -/
theorem broadcast_hits_active_set_witness :
    (run wtrace).log.filter (fun d => d.evIdx == 3 && d.sid == 1)
        = [⟨3, 1, "orderChanged", mkPayload wev⟩] ∧
    (run wtrace).log.filter (fun d => d.evIdx == 3 && d.sid == 2) = [] := by
  have h1 := broadcast_hits_active_set wtrace 3 wev 1 (by rfl) (by rfl)
  have h2 := broadcast_hits_active_set wtrace 3 wev 2 (by rfl) (by rfl)
  exact ⟨h1.1 (by decide), h2.2 (by decide)⟩

/-- A sample trace in which the change stream errors at position 2;
the change event at position 3 must reach nobody. -/
def wtraceErr : List SysEv := [.connect 1, .change wev, .streamError, .change wevDel]

/-- C3: a change-stream error invokes the error handler and closes the
subscription; the handler does not retry (server.js:119-122 only
logs), so the subscription stays closed and every record ever
delivered on the trace originates from before the error. -/
theorem stream_error_closes (evs : List SysEv) (i : Nat)
    (hev : evs.get? i = some .streamError) :
    (run evs).closed = true ∧ 1 ≤ (run evs).errorCount ∧
    ∀ d ∈ (run evs).log, d.evIdx < i := by
  have hev2 : evs[i]? = some SysEv.streamError := by
    rw [← List.get?_eq_getElem?]; exact hev
  obtain ⟨hlt, hgetElem⟩ := List.getElem?_eq_some_iff.mp hev2
  have hdrop : List.drop i evs = SysEv.streamError :: List.drop (i + 1) evs := by
    rw [List.drop_eq_getElem_cons hlt, hgetElem]
  have hlen_take : (List.take i evs).length = i := by
    rw [List.length_take]; omega
  have hrun : run evs
      = runAux (step (run (List.take i evs)) i SysEv.streamError) (i + 1)
          (List.drop (i + 1) evs) := by
    conv_lhs => rw [run, ← List.take_append_drop i evs]
    rw [runAux_append, hlen_take, Nat.zero_add, hdrop]
    rfl
  have hstep_closed : (step (run (List.take i evs)) i SysEv.streamError).closed = true := rfl
  obtain ⟨hcl, hlog⟩ := closed_runAux (List.drop (i + 1) evs) _ (i + 1) hstep_closed
  obtain ⟨t0, ht0, ht0b⟩ := log_bounds (List.take i evs) initState 0
  refine ⟨by rw [hrun]; exact hcl, ?_, ?_⟩
  · have h2 := errorCount_mono (List.drop (i + 1) evs)
      (step (run (List.take i evs)) i SysEv.streamError) (i + 1)
    have h1 : (step (run (List.take i evs)) i SysEv.streamError).errorCount
        = (run (List.take i evs)).errorCount + 1 := rfl
    rw [hrun]
    omega
  · intro d hd
    rw [hrun, hlog] at hd
    have hd2 : d ∈ (run (List.take i evs)).log := hd
    rw [run, ht0] at hd2
    have hd' : d ∈ t0 := by simpa [initState] using hd2
    have := (ht0b d hd').2
    omega

/-- Witness for C3: on the concrete trace `wtraceErr`, after the error
at position 2 the stream is closed, the error handler ran, and every
delivery predates the error — in particular the later change event
reached no client. -/
theorem stream_error_closes_witness :
    (run wtraceErr).closed = true ∧ 1 ≤ (run wtraceErr).errorCount ∧
    ∀ d ∈ (run wtraceErr).log, d.evIdx < 2 :=
  stream_error_closes wtraceErr 2 (by rfl)

/-- C5: every record pushed to clients over any trace carries the
message type `orderChanged`, and its payload is exactly the five
canonical fields of the native event — operation, namespace, document
key, full document (or null), changed fields (or null) — and is
independent of the event's resume token, which is never exposed. -/
theorem orderChanged_payload_shape (evs : List SysEv) (e : ChangeEvent) (tok : Nat) :
    (run evs).log.all (fun d => d.msg == "orderChanged") = true ∧
    mkPayload { e with resumeToken := tok } = mkPayload e ∧
    (mkPayload e).op = e.operationType ∧
    (mkPayload e).ns = e.ns ∧
    (mkPayload e).documentKey = e.documentKey ∧
    (mkPayload e).fullDocument = e.fullDocument ∧
    (mkPayload e).updateDescription = e.updateDescription :=
  ⟨msg_runAux evs initState 0 rfl, rfl, rfl, rfl, rfl, rfl, rfl⟩

/-- C6: an event without a full document is still emitted, not
dropped: the payload carries `fullDocument = null`, keeps whatever
`updateDescription` the event had, and the handler still broadcasts to
every connected channel. -/
theorem absent_fulldoc_still_emitted (e : ChangeEvent) (s : SrvState) (i : Nat)
    (hfd : e.fullDocument = none) (hopen : s.closed = false) :
    (mkPayload e).fullDocument = none ∧
    (mkPayload e).updateDescription = e.updateDescription ∧
    (step s i (.change e)).log = s.log ++ broadcastLog i (mkPayload e) s.channels := by
  refine ⟨hfd, rfl, by simp [step, hopen]⟩

/-- Witness for C6: a concrete delete event with no full document is
broadcast to the one connected client with `fullDocument = null` and
its changed fields intact. -/
theorem absent_fulldoc_still_emitted_witness :
    (mkPayload wevDel).fullDocument = none ∧
    (mkPayload wevDel).updateDescription = wevDel.updateDescription ∧
    (step ⟨[1], false, 0, []⟩ 0 (.change wevDel)).log
      = [] ++ broadcastLog 0 (mkPayload wevDel) [1] :=
  absent_fulldoc_still_emitted wevDel ⟨[1], false, 0, []⟩ 0 rfl rfl

/-- C8: register and unregister on the channel set are idempotent:
doing either twice in a row leaves the same channel set as doing it
once, from any starting set. -/
theorem register_unregister_idempotent (chs : List Nat) (sid : Nat) :
    register (register chs sid) sid = register chs sid ∧
    unregister (unregister chs sid) sid = unregister chs sid := by
  constructor
  · unfold register
    by_cases hm : sid ∈ chs
    · simp [hm]
    · simp [hm]
  · unfold unregister
    rw [List.filter_filter]
    simp

theorem find?_applySetStatus (store : List OrderDoc) (key : Int) (st : String) (now : Nat)
    (hmem : ∃ d ∈ store, d.id = key) :
    ∃ d', (applySetStatus store key st now).find? (fun d => d.id == key) = some d'
      ∧ d'.status = st ∧ d'.id = key := by
  induction store with
  | nil => obtain ⟨d, hd, _⟩ := hmem; cases hd
  | cons d rest ih =>
      by_cases hd : d.id = key
      · refine ⟨setStatus d st now, ?_, rfl, hd⟩
        have h1 : applySetStatus (d :: rest) key st now
            = setStatus d st now :: applySetStatus rest key st now := by
          simp [applySetStatus, hd]
        rw [h1]
        exact List.find?_cons_of_pos _ (by simp [setStatus, hd])
      · obtain ⟨d0, hd0, hid0⟩ := hmem
        have hd0' : d0 ∈ rest := by
          rcases List.mem_cons.mp hd0 with rfl | h
          · exact absurd hid0 hd
          · exact h
        obtain ⟨d', hfind, hst, hid⟩ := ih ⟨d0, hd0', hid0⟩
        refine ⟨d', ?_, hst, hid⟩
        have h1 : applySetStatus (d :: rest) key st now
            = d :: applySetStatus rest key st now := by
          simp [applySetStatus, hd]
        rw [h1, List.find?_cons_of_neg _ (by simp [hd])]
        exact hfind

/-- C4: with `updateLookup` enabled (server.js:101), the record
delivered for an update reflects the post-operation document: setting
`status` to "shipped" on a stored document yields a payload whose
`fullDocument.status` is "shipped" (and whose key matches), with the
changed-fields description passed through alongside. -/
theorem update_backfill_postimage (tok now : Nat) (store : List OrderDoc) (key : Int)
    (cf : Option ChangedFields) (hmem : ∃ d ∈ store, d.id = key) :
    ∃ d', (mkPayload (updateLookupEvent tok (applySetStatus store key "shipped" now)
        key cf)).fullDocument = some d'
      ∧ d'.status = "shipped" ∧ d'.id = key
      ∧ (mkPayload (updateLookupEvent tok (applySetStatus store key "shipped" now)
          key cf)).updateDescription = cf := by
  obtain ⟨d', hfind, hst, hid⟩ := find?_applySetStatus store key "shipped" now hmem
  exact ⟨d', hfind, hst, hid, rfl⟩

/-- Witness for C4: updating order 200 of a one-document store to
status "shipped" delivers a post-image with status "shipped". -/
theorem update_backfill_postimage_witness :
    ∃ d', (mkPayload (updateLookupEvent 9 (applySetStatus [wdoc] 200 "shipped" 6)
        200 (some [("status", "shipped")]))).fullDocument = some d'
      ∧ d'.status = "shipped" ∧ d'.id = 200
      ∧ (mkPayload (updateLookupEvent 9 (applySetStatus [wdoc] 200 "shipped" 6)
          200 (some [("status", "shipped")]))).updateDescription
        = some [("status", "shipped")] :=
  update_backfill_postimage 9 6 [wdoc] 200 (some [("status", "shipped")])
    ⟨wdoc, by decide, by decide⟩

theorem mem_broadcastAttempt (fails : Nat → Bool) (p : Payload) (chs : List Nat) (c' : Nat) :
    (c', p) ∈ broadcastAttempt fails p chs ↔ c' ∈ chs ∧ fails c' = false := by
  constructor
  · intro hm
    obtain ⟨x, hx, hsx⟩ := List.mem_filterMap.mp hm
    by_cases h : fails x = true
    · simp [sendToChannel, h] at hsx
    · have hfx : fails x = false := by
        revert h; cases fails x <;> simp
      have hxe : x = c' := by
        simp [sendToChannel, hfx] at hsx
        exact hsx
      subst hxe
      exact ⟨hx, hfx⟩
  · rintro ⟨hm, hf⟩
    exact List.mem_filterMap.mpr ⟨c', hm, by simp [sendToChannel, hf]⟩

/-- C7: a send failure to channel `c` is local to `c`: `c` is
implicitly dropped from the active set, every channel whose send
succeeds still receives the record, and whether `c` fails has no
effect on which other channels receive it. -/
theorem send_failure_isolated (chs : List Nat) (p : Payload) (fails fails2 : Nat → Bool)
    (c : Nat) (hc : fails c = true) (hagree : ∀ x, x ≠ c → fails x = fails2 x) :
    c ∉ survivors fails chs ∧
    (∀ c', c' ∈ chs → fails c' = false → (c', p) ∈ broadcastAttempt fails p chs) ∧
    (∀ c', c' ≠ c →
      ((c', p) ∈ broadcastAttempt fails p chs ↔ (c', p) ∈ broadcastAttempt fails2 p chs)) := by
  refine ⟨?_, ?_, ?_⟩
  · intro hm
    have := List.of_mem_filter hm
    simp [hc] at this
  · intro c' hm hf
    exact (mem_broadcastAttempt fails p chs c').mpr ⟨hm, hf⟩
  · intro c' hne
    rw [mem_broadcastAttempt, mem_broadcastAttempt]
    constructor
    · rintro ⟨hm, hf⟩
      refine ⟨hm, ?_⟩
      rw [← hagree c' hne]
      exact hf
    · rintro ⟨hm, hf⟩
      refine ⟨hm, ?_⟩
      rw [hagree c' hne]
      exact hf

/-- The failure pattern used by the C7 witness: only channel 2's
connection is gone. -/
def wfails : Nat → Bool := fun n => n == 2

/-- Witness for C7: with channels 1, 2, 3 and channel 2 failing,
channel 2 leaves the set, channels 1 and 3 still get the record, and
their deliveries agree with the no-failure run. -/
theorem send_failure_isolated_witness :
    2 ∉ survivors wfails [1, 2, 3] ∧
    (∀ c', c' ∈ [1, 2, 3] → wfails c' = false →
      (c', mkPayload wev) ∈ broadcastAttempt wfails (mkPayload wev) [1, 2, 3]) ∧
    (∀ c', c' ≠ 2 →
      ((c', mkPayload wev) ∈ broadcastAttempt wfails (mkPayload wev) [1, 2, 3] ↔
        (c', mkPayload wev) ∈ broadcastAttempt (fun _ => false) (mkPayload wev) [1, 2, 3])) :=
  send_failure_isolated [1, 2, 3] (mkPayload wev) wfails (fun _ => false) 2 rfl
    (fun _ hx => beq_eq_false_iff_ne.mpr hx)

/-- C9: none of the four CRUD handlers pushes anything to client
channels — each returns an HTTP response with an empty emission list —
and in the event loop only a change-stream event can extend the
delivery log. -/
theorem mutation_api_no_emit (now : Nat) (store : List OrderDoc) (creq : CreateReq)
    (ureq : UpdateReq) (pid : Option Int) (s : SrvState) (i sid : Nat) :
    (postOrders now store creq).emits = [] ∧
    (getOrders store).emits = [] ∧
    (putOrders now store pid ureq).emits = [] ∧
    (deleteOrders store pid).emits = [] ∧
    (step s i (.connect sid)).log = s.log ∧
    (step s i (.disconnect sid)).log = s.log ∧
    (step s i .streamError).log = s.log := by
  refine ⟨?_, rfl, ?_, ?_, rfl, rfl, rfl⟩
  · obtain ⟨cid, ccn, cpn, cst⟩ := creq
    cases cid with
    | none => rfl
    | some k =>
        by_cases h1 : store.any (fun d => d.id == k) = true
        · simp [postOrders, h1]
        · by_cases h2 : validStatus (cst.getD "pending") = true <;>
            simp [postOrders, h1, h2]
  · cases pid with
    | none => rfl
    | some k =>
        cases hf : store.find? (fun d => d.id == k) with
        | none => simp [putOrders, hf]
        | some d => simp [putOrders, hf]
  · cases pid with
    | none => rfl
    | some k =>
        cases hf : store.find? (fun d => d.id == k) with
        | none => simp [deleteOrders, hf]
        | some d => simp [deleteOrders, hf]

/-- C10: a PUT or DELETE whose `:id` does not parse as a number (NaN)
or matches no stored order answers 404 Not found and leaves the
collection untouched — no upsert, no delete. -/
theorem put_delete_not_found (now : Nat) (store : List OrderDoc) (pid : Option Int)
    (ureq : UpdateReq) (h : findById store pid = none) :
    putOrders now store pid ureq = ⟨404, .notFound, store, []⟩ ∧
    deleteOrders store pid = ⟨404, .notFound, store, []⟩ := by
  cases pid with
  | none => exact ⟨rfl, rfl⟩
  | some k =>
      have hf : store.find? (fun d => d.id == k) = none := by
        simpa [findById] using h
      constructor
      · simp [putOrders, hf]
      · simp [deleteOrders, hf]

/-- Witness for C10: a PUT and a DELETE against id 7, absent from a
store holding only order 200, both answer 404 and leave the store
as it was. -/
theorem put_delete_not_found_witness :
    findById [wdoc] (some 7) = none ∧
    (putOrders 9 [wdoc] (some 7) ⟨none, none, none, some "shipped"⟩
        = ⟨404, .notFound, [wdoc], []⟩ ∧
      deleteOrders [wdoc] (some 7) = ⟨404, .notFound, [wdoc], []⟩) :=
  ⟨by decide, put_delete_not_found 9 [wdoc] (some 7) ⟨none, none, none, some "shipped"⟩
    (by decide)⟩

end RealtimeOrder
